import Mathlib

/-!
Verification of the WAL (write-ahead log) edit tracking component of RocksDB
(`db/wal_edit.h`): the `WalMetadata`, `WalAddition`, `WalDeletion` value types,
their binary codec, and the `WalSet` registry that replays addition/deletion
events while enforcing the WAL lifecycle invariants.

Machine integers of the C++ code (`uint64_t` WAL numbers and sizes) are
modelled as `Nat`; no arithmetic in this component can overflow, the only
place the 64-bit width matters is the sentinel `kUnknownWalSize`
(`port::kMaxUint64`, i.e. `2 ^ 64 - 1`).  `std::map<WalNumber, WalMetadata>`
is modelled as the key-to-value mapping `WalNumber → Option WalMetadata`.
`rocksdb::Status` is modelled by an inductive with an `ok` state, a
`corruption` state (lifecycle violations) and a `decodeError` state (byte
stream problems), which the spec requires to be distinguishable.
-/

namespace RocksDBWal

/-- Model of `rocksdb::Status` restricted to the outcomes this component
produces: success, corruption (invariant violation during replay) and
decode/format failure. -/
inductive Status where
  | ok : Status
  | corruption : String → Status
  | decodeError : String → Status
deriving DecidableEq, Repr

/-- Corresponds to `Status::IsCorruption()`: true exactly for corruption
statuses. -/
def Status.isCorruption : Status → Bool
  | Status.corruption _ => true
  | _ => false

/-- `using WalNumber = uint64_t;` -/
abbrev WalNumber := Nat

/-- `WalMetadata::kUnknownWalSize = port::kMaxUint64`, the largest `uint64_t`
value, used as the sentinel for "size of WAL unknown / not synced yet or
empty". -/
def kUnknownWalSize : Nat := 2 ^ 64 - 1

/-- `class WalMetadata`: per-WAL facts, a synced size in bytes and a closed
flag. -/
structure WalMetadata where
  synced_size_bytes : Nat
  closed : Bool
deriving DecidableEq, Repr

/-- The default constructor `WalMetadata()`: unknown size, not closed. -/
def WalMetadata.init : WalMetadata :=
  WalMetadata.mk kUnknownWalSize false

/-- The constructor `WalMetadata(uint64_t synced_size_bytes)`. -/
def WalMetadata.ofSyncedSize (synced_size_bytes : Nat) : WalMetadata :=
  WalMetadata.mk synced_size_bytes false

/-- `WalMetadata::IsClosed`. -/
def WalMetadata.IsClosed (m : WalMetadata) : Bool := m.closed

/-- `WalMetadata::SetClosed`. -/
def WalMetadata.SetClosed (m : WalMetadata) : WalMetadata :=
  WalMetadata.mk m.synced_size_bytes true

/-- `WalMetadata::HasSyncedSize`: `synced_size_bytes_ != kUnknownWalSize`. -/
def WalMetadata.HasSyncedSize (m : WalMetadata) : Bool :=
  m.synced_size_bytes != kUnknownWalSize

/-- `WalMetadata::SetSyncedSizeInBytes`. -/
def WalMetadata.SetSyncedSizeInBytes (m : WalMetadata) (bytes : Nat) : WalMetadata :=
  WalMetadata.mk bytes m.closed

/-- `WalMetadata::GetSyncedSizeInBytes`. -/
def WalMetadata.GetSyncedSizeInBytes (m : WalMetadata) : Nat :=
  m.synced_size_bytes

/-- C9: a default-constructed `WalMetadata` has `IsClosed() = false` and
`HasSyncedSize() = false`, and after `SetSyncedSizeInBytes(0)` it has
`HasSyncedSize() = true` with `GetSyncedSizeInBytes() = 0`, so "synced 0
bytes" is distinguishable from "never synced". -/
theorem walMetadata_default_state_and_zero_size :
    WalMetadata.init.IsClosed = false ∧
    WalMetadata.init.HasSyncedSize = false ∧
    (WalMetadata.init.SetSyncedSizeInBytes 0).HasSyncedSize = true ∧
    (WalMetadata.init.SetSyncedSizeInBytes 0).GetSyncedSizeInBytes = 0 := by
  refine ⟨rfl, ?_, ?_, rfl⟩ <;> decide

/-- C10: `HasSyncedSize()` is true iff the stored synced size differs from
`2 ^ 64 - 1`; setting a synced size of `2 ^ 64 - 1` (via the setter or the
size constructor) yields `HasSyncedSize() = false`, indistinguishable from
the "unknown" sentinel. -/
theorem hasSyncedSize_iff_ne_sentinel :
    (∀ m : WalMetadata, m.HasSyncedSize = true ↔ m.synced_size_bytes ≠ 2 ^ 64 - 1) ∧
    (∀ m : WalMetadata, (m.SetSyncedSizeInBytes (2 ^ 64 - 1)).HasSyncedSize = false) ∧
    (WalMetadata.ofSyncedSize (2 ^ 64 - 1)).HasSyncedSize = false := by
  refine ⟨?_, ?_, ?_⟩
  · intro m
    simp [WalMetadata.HasSyncedSize, kUnknownWalSize]
  · intro m
    simp [WalMetadata.HasSyncedSize, WalMetadata.SetSyncedSizeInBytes, kUnknownWalSize]
  · decide

/-- Modelled from the spec: the codec helpers (`PutVarint64`/`GetVarint64`,
`coding.h`, not under `src/`) use a little-endian base-128 variable-length
integer encoding; the spec says to "treat as opaque varint".  Bytes are
modelled as `Nat` values below 256. -/
def varintEncode (n : Nat) : List Nat :=
  if h : n < 128 then [n]
  else (n % 128 + 128) :: varintEncode (n / 128)
termination_by n
decreasing_by
  exact Nat.div_lt_self (by omega) (by omega)

/-- Modelled from the spec: varint decoding, consuming a prefix of the byte
list and returning the decoded value together with the unconsumed rest;
`none` on truncated input. -/
def varintDecode : List Nat → Option (Nat × List Nat)
  | [] => none
  | b :: rest =>
    if b < 128 then some (b, rest)
    else
      match varintDecode rest with
      | none => none
      | some (v, rest2) => some (b % 128 + v * 128, rest2)

theorem varintEncode_length_pos (n : Nat) : 0 < (varintEncode n).length := by
  rw [varintEncode]
  split <;> simp

theorem varintDecode_encode :
    ∀ (n : Nat) (rest : List Nat),
      varintDecode (varintEncode n ++ rest) = some (n, rest) := by
  intro n
  induction n using Nat.strong_induction_on with
  | _ n ih =>
    intro rest
    rw [varintEncode]
    by_cases h : n < 128
    · simp [h, varintDecode]
    · have hb : ¬ (n % 128 + 128 < 128) := by omega
      have hdiv : n / 128 < n := Nat.div_lt_self (by omega) (by omega)
      simp only [h, dite_false, List.cons_append, varintDecode, hb, if_false,
        ih (n / 128) hdiv rest]
      simp
      omega

theorem varintDecode_length_lt :
    ∀ (l : List Nat) (v : Nat) (r : List Nat),
      varintDecode l = some (v, r) → r.length < l.length := by
  intro l
  induction l with
  | nil =>
    intro v r hvr
    simp [varintDecode] at hvr
  | cons b rest ih =>
    intro v r hvr
    by_cases hb : b < 128
    · simp [varintDecode, hb] at hvr
      simp [← hvr.2]
    · simp only [varintDecode, hb, if_false] at hvr
      cases hd : varintDecode rest with
      | none => rw [hd] at hvr; simp at hvr
      | some p =>
        rw [hd] at hvr
        simp at hvr
        have := ih p.1 p.2 (by rw [hd])
        rw [← hvr.2]
        simp
        omega

/-- `enum class WalAdditionTag : uint32_t`: tags persisted to MANIFEST for the
fields of a `WalAddition` record. -/
inductive WalAdditionTag where
  | kTerminate : WalAdditionTag
  | kSyncedSize : WalAdditionTag
  | kClosed : WalAdditionTag
deriving DecidableEq, Repr

/-- The numeric values of the tags: `kTerminate = 1`, `kSyncedSize = 2`,
`kClosed = 3`. -/
def WalAdditionTag.toNat : WalAdditionTag → Nat
  | WalAdditionTag.kTerminate => 1
  | WalAdditionTag.kSyncedSize => 2
  | WalAdditionTag.kClosed => 3

/-- `class WalAddition`: the durable event "WAL `number_` exists with metadata
`metadata_`". -/
structure WalAddition where
  number_ : WalNumber
  metadata_ : WalMetadata
deriving DecidableEq, Repr

/-- `WalAddition::GetLogNumber`. -/
def WalAddition.GetLogNumber (a : WalAddition) : WalNumber := a.number_

/-- `WalAddition::GetMetadata`. -/
def WalAddition.GetMetadata (a : WalAddition) : WalMetadata := a.metadata_

/-- `class WalDeletion`: the durable event "WAL `number_` is removed". -/
structure WalDeletion where
  number_ : WalNumber
deriving DecidableEq, Repr

/-- `WalDeletion::GetLogNumber`. -/
def WalDeletion.GetLogNumber (d : WalDeletion) : WalNumber := d.number_

/-- Modelled from the spec: the body of `WalAddition::EncodeTo` (wal_edit.cc is
not under `src/`).  Per spec §4.2 an addition encodes as
`varint(wal_identifier)` followed by tagged fields — the synced-size tag with
a varint payload when a synced size is present (absence of the tag means
unknown), the closed tag (no payload) when the WAL is closed — terminated by
the mandatory terminate tag. -/
def WalMetadata.encodeTags (m : WalMetadata) : List Nat :=
  (if m.HasSyncedSize then
     varintEncode WalAdditionTag.kSyncedSize.toNat ++ varintEncode m.synced_size_bytes
   else []) ++
  (if m.closed then varintEncode WalAdditionTag.kClosed.toNat else []) ++
  varintEncode WalAdditionTag.kTerminate.toNat

/-- `WalAddition::EncodeTo`, modelled from the spec (see
`WalMetadata.encodeTags`). -/
def WalAddition.EncodeTo (a : WalAddition) : List Nat :=
  varintEncode a.number_ ++ a.metadata_.encodeTags

/-- Modelled from the spec: `WalDeletion::EncodeTo` emits
`varint(wal_identifier)` and nothing else (spec §4.2). -/
def WalDeletion.EncodeTo (d : WalDeletion) : List Nat :=
  varintEncode d.number_

/-- Modelled from the spec: the tag-reading loop of
`WalAddition::DecodeFrom`.  Reads `(varint(tag), payload)` records, applying
the synced-size and closed fields to the metadata, until the terminate tag;
a truncated stream or an unrecognized tag is a decode (format) failure.  The
structural `fuel` argument only bounds the recursion; `decodeTags` below
always supplies more fuel than the byte count, and every iteration consumes
at least one byte, so the fuel-exhaustion branch is unreachable. -/
def decodeTagsAux : Nat → WalMetadata → List Nat → Status × WalMetadata × List Nat
  | 0, meta, src => (Status.decodeError "Error decoding tag", meta, src)
  | fuel + 1, meta, src =>
    match varintDecode src with
    | none => (Status.decodeError "Error decoding tag", meta, src)
    | some (tag, rest) =>
      if tag = WalAdditionTag.kTerminate.toNat then
        (Status.ok, meta, rest)
      else if tag = WalAdditionTag.kSyncedSize.toNat then
        match varintDecode rest with
        | none => (Status.decodeError "Error decoding WAL file size", meta, rest)
        | some (size, rest2) => decodeTagsAux fuel (meta.SetSyncedSizeInBytes size) rest2
      else if tag = WalAdditionTag.kClosed.toNat then
        decodeTagsAux fuel meta.SetClosed rest
      else
        (Status.decodeError "Unknown tag", meta, rest)

/-- The tag-reading loop of `WalAddition::DecodeFrom` (see `decodeTagsAux`). -/
def decodeTags (meta : WalMetadata) (src : List Nat) : Status × WalMetadata × List Nat :=
  decodeTagsAux (src.length + 1) meta src

theorem decodeTagsAux_fuel_irrel :
    ∀ (f1 f2 : Nat) (meta : WalMetadata) (src : List Nat),
      src.length < f1 → src.length < f2 →
      decodeTagsAux f1 meta src = decodeTagsAux f2 meta src := by
  intro f1
  induction f1 with
  | zero =>
    intro f2 meta src h1 h2
    omega
  | succ f1 ih =>
    intro f2 meta src h1 h2
    cases f2 with
    | zero => omega
    | succ f2 =>
      simp only [decodeTagsAux]
      cases hv : varintDecode src with
      | none => rfl
      | some p =>
        obtain ⟨tag, rest⟩ := p
        have hrest : rest.length < src.length := varintDecode_length_lt src tag rest hv
        by_cases ht : tag = WalAdditionTag.kTerminate.toNat
        · simp [ht]
        · by_cases hs : tag = WalAdditionTag.kSyncedSize.toNat
          · simp only [ht, if_false, hs, if_true]
            cases hv2 : varintDecode rest with
            | none => rfl
            | some q =>
              obtain ⟨size, rest2⟩ := q
              have hrest2 : rest2.length < rest.length :=
                varintDecode_length_lt rest size rest2 hv2
              exact ih f2 (meta.SetSyncedSizeInBytes size) rest2 (by omega) (by omega)
          · by_cases hc : tag = WalAdditionTag.kClosed.toNat
            · simp only [ht, if_false, hs, hc, if_true]
              exact ih f2 meta.SetClosed rest (by omega) (by omega)
            · simp [ht, hs, hc]

/-- The recurrence satisfied by `decodeTags`: it behaves as the direct
recursive tag loop, with no fuel in sight. -/
theorem decodeTags_eq (meta : WalMetadata) (src : List Nat) :
    decodeTags meta src =
      match varintDecode src with
      | none => (Status.decodeError "Error decoding tag", meta, src)
      | some (tag, rest) =>
        if tag = WalAdditionTag.kTerminate.toNat then
          (Status.ok, meta, rest)
        else if tag = WalAdditionTag.kSyncedSize.toNat then
          match varintDecode rest with
          | none => (Status.decodeError "Error decoding WAL file size", meta, rest)
          | some (size, rest2) => decodeTags (meta.SetSyncedSizeInBytes size) rest2
        else if tag = WalAdditionTag.kClosed.toNat then
          decodeTags meta.SetClosed rest
        else
          (Status.decodeError "Unknown tag", meta, rest) := by
  show decodeTagsAux (src.length + 1) meta src = _
  simp only [decodeTagsAux]
  cases hv : varintDecode src with
  | none => rfl
  | some p =>
    obtain ⟨tag, rest⟩ := p
    have hrest : rest.length < src.length := varintDecode_length_lt src tag rest hv
    by_cases ht : tag = WalAdditionTag.kTerminate.toNat
    · simp [ht]
    · by_cases hs : tag = WalAdditionTag.kSyncedSize.toNat
      · simp only [ht, if_false, hs, if_true]
        cases hv2 : varintDecode rest with
        | none => rfl
        | some q =>
          obtain ⟨size, rest2⟩ := q
          have hrest2 : rest2.length < rest.length :=
            varintDecode_length_lt rest size rest2 hv2
          exact decodeTagsAux_fuel_irrel src.length (rest2.length + 1)
            (meta.SetSyncedSizeInBytes size) rest2 (by omega) (by omega)
      · by_cases hc : tag = WalAdditionTag.kClosed.toNat
        · simp only [ht, if_false, hs, hc, if_true]
          exact decodeTagsAux_fuel_irrel src.length (rest.length + 1)
            meta.SetClosed rest (by omega) (by omega)
        · simp [ht, hs, hc]

/-- Modelled from the spec: `WalAddition::DecodeFrom` reads the varint WAL
identifier (failure to read it is a decode failure), then runs the tag loop
starting from default metadata; it returns the populated value and leaves the
unconsumed suffix. -/
def WalAddition.DecodeFrom (src : List Nat) : Status × WalAddition × List Nat :=
  match varintDecode src with
  | none =>
    (Status.decodeError "Error decoding WAL log number",
      WalAddition.mk 0 WalMetadata.init, src)
  | some (n, rest) =>
    let r := decodeTags WalMetadata.init rest
    (r.1, WalAddition.mk n r.2.1, r.2.2)

/-- Modelled from the spec: `WalDeletion::DecodeFrom` reads the varint WAL
identifier; failure to read it is a decode failure. -/
def WalDeletion.DecodeFrom (src : List Nat) : Status × WalDeletion × List Nat :=
  match varintDecode src with
  | none =>
    (Status.decodeError "Error decoding WAL log number", WalDeletion.mk 0, src)
  | some (n, rest) => (Status.ok, WalDeletion.mk n, rest)

theorem decodeTags_syncedSize_step (meta : WalMetadata) (sz : Nat) (l : List Nat) :
    decodeTags meta
        (varintEncode WalAdditionTag.kSyncedSize.toNat ++ (varintEncode sz ++ l)) =
      decodeTags (meta.SetSyncedSizeInBytes sz) l := by
  rw [decodeTags_eq, varintDecode_encode]
  simp [WalAdditionTag.toNat, varintDecode_encode]

theorem decodeTags_closed_step (meta : WalMetadata) (l : List Nat) :
    decodeTags meta (varintEncode WalAdditionTag.kClosed.toNat ++ l) =
      decodeTags meta.SetClosed l := by
  rw [decodeTags_eq, varintDecode_encode]
  simp [WalAdditionTag.toNat]

theorem decodeTags_terminate_step (meta : WalMetadata) (l : List Nat) :
    decodeTags meta (varintEncode WalAdditionTag.kTerminate.toNat ++ l) =
      (Status.ok, meta, l) := by
  rw [decodeTags_eq, varintDecode_encode]
  simp [WalAdditionTag.toNat]

theorem decodeTags_encodeTags (m : WalMetadata) (rest : List Nat) :
    decodeTags WalMetadata.init (m.encodeTags ++ rest) = (Status.ok, m, rest) := by
  obtain ⟨sz, cl⟩ := m
  by_cases hsz : WalMetadata.HasSyncedSize (WalMetadata.mk sz cl)
  · have hsz2 : sz ≠ kUnknownWalSize := by
      simpa [WalMetadata.HasSyncedSize] using hsz
    cases cl
    · simp only [WalMetadata.encodeTags, hsz, if_true, if_false, Bool.false_eq_true,
        List.append_nil, List.nil_append, List.append_assoc]
      rw [decodeTags_syncedSize_step, decodeTags_terminate_step]
      simp [WalMetadata.SetSyncedSizeInBytes, WalMetadata.init]
    · simp only [WalMetadata.encodeTags, hsz, if_true, List.append_assoc]
      rw [decodeTags_syncedSize_step, decodeTags_closed_step, decodeTags_terminate_step]
      simp [WalMetadata.SetSyncedSizeInBytes, WalMetadata.SetClosed, WalMetadata.init]
  · have hsz2 : sz = kUnknownWalSize := by
      simpa [WalMetadata.HasSyncedSize] using hsz
    cases cl
    · simp only [WalMetadata.encodeTags, hsz, if_false, Bool.false_eq_true,
        List.append_nil, List.nil_append, List.append_assoc]
      rw [decodeTags_terminate_step]
      simp [WalMetadata.init, hsz2]
    · simp only [WalMetadata.encodeTags, hsz, if_false, if_true, Bool.false_eq_true,
        ite_false, List.nil_append, List.append_assoc]
      rw [decodeTags_closed_step, decodeTags_terminate_step]
      simp [WalMetadata.SetClosed, WalMetadata.init, hsz2]

/-- C4: encoding a `WalAddition` with `EncodeTo` and decoding the produced
bytes with `DecodeFrom` succeeds and yields an equal identifier and equal
metadata (synced size and closed flag), consuming exactly the encoded bytes;
likewise encode-then-decode of a `WalDeletion` yields an equal identifier. -/
theorem wal_codec_round_trip (n : WalNumber) (m : WalMetadata)
    (hn : n < 2 ^ 64) (hm : m.synced_size_bytes < 2 ^ 64) :
    WalAddition.DecodeFrom (WalAddition.EncodeTo (WalAddition.mk n m)) =
      (Status.ok, WalAddition.mk n m, ([] : List Nat)) ∧
    WalDeletion.DecodeFrom (WalDeletion.EncodeTo (WalDeletion.mk n)) =
      (Status.ok, WalDeletion.mk n, ([] : List Nat)) := by
  constructor
  · show WalAddition.DecodeFrom (varintEncode n ++ WalMetadata.encodeTags m) = _
    rw [WalAddition.DecodeFrom]
    rw [varintDecode_encode]
    have h := decodeTags_encodeTags m []
    rw [List.append_nil] at h
    simp [h]
  · show WalDeletion.DecodeFrom (varintEncode n) = _
    rw [WalDeletion.DecodeFrom]
    have h := varintDecode_encode n []
    rw [List.append_nil] at h
    rw [h]

/-- Witness for `wal_codec_round_trip` at identifier 513 with synced size 200
and closed flag set. -/
theorem wal_codec_round_trip_witness :
    WalAddition.DecodeFrom
        (WalAddition.EncodeTo (WalAddition.mk 513 (WalMetadata.mk 200 true))) =
      (Status.ok, WalAddition.mk 513 (WalMetadata.mk 200 true), ([] : List Nat)) ∧
    WalDeletion.DecodeFrom (WalDeletion.EncodeTo (WalDeletion.mk 513)) =
      (Status.ok, WalDeletion.mk 513, ([] : List Nat)) :=
  wal_codec_round_trip 513 (WalMetadata.mk 200 true) (by decide) (by decide)

theorem decodeTagsAux_never_corruption :
    ∀ (fuel : Nat) (meta : WalMetadata) (src : List Nat),
      (decodeTagsAux fuel meta src).1.isCorruption = false := by
  intro fuel
  induction fuel with
  | zero =>
    intro meta src
    simp [decodeTagsAux, Status.isCorruption]
  | succ fuel ih =>
    intro meta src
    simp only [decodeTagsAux]
    cases hv : varintDecode src with
    | none => simp [Status.isCorruption]
    | some p =>
      obtain ⟨tag, rest⟩ := p
      by_cases ht : tag = WalAdditionTag.kTerminate.toNat
      · simp [ht, Status.isCorruption]
      · by_cases hs : tag = WalAdditionTag.kSyncedSize.toNat
        · simp only [if_neg ht, if_pos hs]
          cases hv2 : varintDecode rest with
          | none => simp [Status.isCorruption]
          | some q => exact ih (meta.SetSyncedSizeInBytes q.1) q.2
        · by_cases hc : tag = WalAdditionTag.kClosed.toNat
          · simp only [if_neg ht, if_neg hs, if_pos hc]
            exact ih meta.SetClosed rest
          · simp [ht, hs, hc, Status.isCorruption]

/-- A field of a `WalAddition` tag stream other than the terminate marker:
either a synced-size record or a closed record. -/
inductive WalField where
  | fieldSyncedSize : Nat → WalField
  | fieldClosed : WalField
deriving DecidableEq, Repr

/-- The encoding of one tag-stream field. -/
def encodeWalField : WalField → List Nat
  | WalField.fieldSyncedSize n =>
    varintEncode WalAdditionTag.kSyncedSize.toNat ++ varintEncode n
  | WalField.fieldClosed => varintEncode WalAdditionTag.kClosed.toNat

/-- The encoding of a sequence of tag-stream fields, with NO terminate marker:
a truncated tag stream. -/
def encodeWalFields (fs : List WalField) : List Nat :=
  (fs.map encodeWalField).flatten

theorem decodeTags_missing_terminate :
    ∀ (fs : List WalField) (meta : WalMetadata),
      ∃ m2, decodeTags meta (encodeWalFields fs) =
        (Status.decodeError "Error decoding tag", m2, ([] : List Nat)) := by
  intro fs
  induction fs with
  | nil =>
    intro meta
    refine ⟨meta, ?_⟩
    rw [decodeTags_eq]
    simp [encodeWalFields, varintDecode]
  | cons f fs ih =>
    intro meta
    cases f with
    | fieldSyncedSize n =>
      have hjoin : encodeWalFields (WalField.fieldSyncedSize n :: fs) =
          varintEncode WalAdditionTag.kSyncedSize.toNat ++
            (varintEncode n ++ encodeWalFields fs) := by
        simp [encodeWalFields, encodeWalField]
      rw [hjoin, decodeTags_syncedSize_step]
      exact ih (meta.SetSyncedSizeInBytes n)
    | fieldClosed =>
      have hjoin : encodeWalFields (WalField.fieldClosed :: fs) =
          varintEncode WalAdditionTag.kClosed.toNat ++ encodeWalFields fs := by
        simp [encodeWalFields, encodeWalField]
      rw [hjoin, decodeTags_closed_step]
      exact ih meta.SetClosed

/-- C6: `WalAddition::DecodeFrom` fails with a decode (format) error distinct
from corruption: (1) no input whatsoever makes it produce a corruption status;
(2) whenever the tag stream's next tag is neither `kTerminate`, `kSyncedSize`
nor `kClosed`, decoding fails with a decode error rather than silently
skipping the tag; (3) a tag stream made of valid fields but truncated before
the mandatory `kTerminate` marker fails with a decode error. -/
theorem wal_addition_decode_fails_on_unknown_or_truncated :
    (∀ src : List Nat, (WalAddition.DecodeFrom src).1.isCorruption = false) ∧
    (∀ (idn : WalNumber) (src rest : List Nat) (tag : Nat),
       varintDecode src = some (tag, rest) →
       tag ≠ WalAdditionTag.kTerminate.toNat →
       tag ≠ WalAdditionTag.kSyncedSize.toNat →
       tag ≠ WalAdditionTag.kClosed.toNat →
       (WalAddition.DecodeFrom (varintEncode idn ++ src)).1 =
         Status.decodeError "Unknown tag") ∧
    (∀ (idn : WalNumber) (fs : List WalField),
       (WalAddition.DecodeFrom (varintEncode idn ++ encodeWalFields fs)).1 =
         Status.decodeError "Error decoding tag") := by
  refine ⟨?_, ?_, ?_⟩
  · intro src
    rw [WalAddition.DecodeFrom]
    cases hv : varintDecode src with
    | none => simp [Status.isCorruption]
    | some p =>
      simp only []
      exact decodeTagsAux_never_corruption _ WalMetadata.init p.2
  · intro idn src rest tag hv ht hs hc
    rw [WalAddition.DecodeFrom, varintDecode_encode]
    have hd : decodeTags WalMetadata.init src =
        (Status.decodeError "Unknown tag", WalMetadata.init, rest) := by
      rw [decodeTags_eq, hv]
      simp [ht, hs, hc]
    simp [hd]
  · intro idn fs
    rw [WalAddition.DecodeFrom, varintDecode_encode]
    obtain ⟨m2, hd⟩ := decodeTags_missing_terminate fs WalMetadata.init
    simp [hd]

/-- Witness for `wal_addition_decode_fails_on_unknown_or_truncated`: the
unrecognized tag 4 after identifier 9 yields the unknown-tag decode error. -/
theorem wal_addition_decode_fails_witness :
    (WalAddition.DecodeFrom (varintEncode 9 ++ [4])).1 =
      Status.decodeError "Unknown tag" :=
  wal_addition_decode_fails_on_unknown_or_truncated.2.1 9 [4] [] 4 (by decide)
    (by decide) (by decide) (by decide)

/-- `class WalSet`: the live registry of WALs,
`std::map<WalNumber, WalMetadata> wals_`, modelled as the key-to-value
mapping.  (The claims under verification do not depend on the map's
by-identifier iteration order.) -/
def WalSet := WalNumber → Option WalMetadata

/-- A default-constructed `WalSet`: the empty mapping. -/
def WalSet.init : WalSet := fun _ => none

/-- `WalSet::GetWals`: the current mapping. -/
def WalSet.GetWals (s : WalSet) : WalNumber → Option WalMetadata := s

/-- `WalSet::Reset`: clears the mapping. -/
def WalSet.Reset (_ : WalSet) : WalSet := fun _ => none

/-- Modelled from the spec: the body of `WalSet::AddWal` (wal_edit.cc is not
under `src/`).  Per spec §4.3 and §3: if the identifier is new, the addition
inserts fresh metadata, but fails with corruption if it states `closed = true`
with no prior entry; if the identifier exists, the new metadata is merged
into the entry — new fields overwrite/extend, and a true `closed` flag is
never erased (closing is one-directional). -/
def WalSet.AddWal (s : WalSet) (wal : WalAddition) : Status × WalSet :=
  match s wal.number_ with
  | none =>
    if wal.metadata_.closed then
      (Status.corruption "WAL is not created before closing", s)
    else
      (Status.ok, fun k => if k = wal.number_ then some wal.metadata_ else s k)
  | some existing =>
    (Status.ok, fun k =>
      if k = wal.number_ then
        some (WalMetadata.mk wal.metadata_.synced_size_bytes
          (existing.closed || wal.metadata_.closed))
      else s k)

/-- Modelled from the spec: `WalSet::AddWals` applies the additions
sequentially in order and stops at the first failure, leaving prior
successful applications in effect (no rollback across the batch). -/
def WalSet.AddWals (s : WalSet) : List WalAddition → Status × WalSet
  | [] => (Status.ok, s)
  | w :: rest =>
    let r := WalSet.AddWal s w
    if r.1 = Status.ok then WalSet.AddWals r.2 rest else r

/-- Modelled from the spec: the body of `WalSet::DeleteWal`.  Per spec §4.3
the WAL to be deleted must exist and be closed, otherwise the deletion fails
with corruption and the mapping is unchanged; on success the entry is
removed. -/
def WalSet.DeleteWal (s : WalSet) (wal : WalDeletion) : Status × WalSet :=
  match s wal.number_ with
  | none => (Status.corruption "WAL must exist before deletion", s)
  | some m =>
    if m.closed then
      (Status.ok, fun k => if k = wal.number_ then none else s k)
    else
      (Status.corruption "WAL must be closed before deletion", s)

/-- Modelled from the spec: `WalSet::DeleteWals` applies the deletions
sequentially in order and stops at the first failure, leaving prior
successful applications in effect (no rollback across the batch). -/
def WalSet.DeleteWals (s : WalSet) : List WalDeletion → Status × WalSet
  | [] => (Status.ok, s)
  | w :: rest =>
    let r := WalSet.DeleteWal s w
    if r.1 = Status.ok then WalSet.DeleteWals r.2 rest else r

/-- C1: applying an addition for an identifier that already has an entry
succeeds and merges the new metadata into the entry: the stored synced size
becomes the addition's synced size, the stored closed flag is the disjunction
of old and new (a true `closed` is never erased); in particular an addition
that only sets synced size (`closed = false`) leaves a previously true
`closed` flag true, and leaves it false if no prior addition closed the
WAL. -/
theorem addWal_existing_merges (s : WalSet) (n : WalNumber) (m old : WalMetadata)
    (h : s n = some old) :
    (WalSet.AddWal s (WalAddition.mk n m)).1 = Status.ok ∧
    (WalSet.AddWal s (WalAddition.mk n m)).2 n =
      some (WalMetadata.mk m.synced_size_bytes (old.closed || m.closed)) ∧
    (old.closed = true →
      ∃ m2, (WalSet.AddWal s (WalAddition.mk n m)).2 n = some m2 ∧ m2.closed = true) ∧
    (m.closed = false →
      ∃ m2, (WalSet.AddWal s (WalAddition.mk n m)).2 n = some m2 ∧
        m2.closed = old.closed) := by
  refine ⟨?_, ?_, ?_, ?_⟩
  · simp [WalSet.AddWal, h]
  · simp [WalSet.AddWal, h]
  · intro hold
    refine ⟨WalMetadata.mk m.synced_size_bytes (old.closed || m.closed), ?_, ?_⟩
    · simp [WalSet.AddWal, h]
    · simp [hold]
  · intro hm
    refine ⟨WalMetadata.mk m.synced_size_bytes (old.closed || m.closed), ?_, ?_⟩
    · simp [WalSet.AddWal, h]
    · simp [hm]

/-- Witness for `addWal_existing_merges`: in a set holding WAL 3 as closed
with synced size 10, an addition for WAL 3 that only sets synced size 25
keeps the entry closed. -/
theorem addWal_existing_merges_witness :
    (WalSet.AddWal
        (fun k => if k = 3 then some (WalMetadata.mk 10 true) else none)
        (WalAddition.mk 3 (WalMetadata.mk 25 false))).1 = Status.ok ∧
    (WalSet.AddWal
        (fun k => if k = 3 then some (WalMetadata.mk 10 true) else none)
        (WalAddition.mk 3 (WalMetadata.mk 25 false))).2 3 =
      some (WalMetadata.mk 25 (true || false)) := by
  have h := addWal_existing_merges
    (fun k => if k = 3 then some (WalMetadata.mk 10 true) else none)
    3 (WalMetadata.mk 25 false) (WalMetadata.mk 10 true) (by simp)
  exact ⟨h.1, h.2.1⟩

/-- C2: an addition whose metadata has `closed = true` for an identifier with
no entry in the set fails with a corruption error. -/
theorem addWal_closed_without_entry_corruption (s : WalSet) (a : WalAddition)
    (h : s a.number_ = none) (hc : a.metadata_.closed = true) :
    (WalSet.AddWal s a).1.isCorruption = true := by
  simp [WalSet.AddWal, h, hc, Status.isCorruption]

/-- Witness for `addWal_closed_without_entry_corruption`: closing WAL 5 in
the empty set is corruption. -/
theorem addWal_closed_without_entry_corruption_witness :
    (WalSet.AddWal WalSet.init (WalAddition.mk 5 (WalMetadata.mk 100 true))).1.isCorruption =
      true :=
  addWal_closed_without_entry_corruption WalSet.init
    (WalAddition.mk 5 (WalMetadata.mk 100 true)) rfl rfl

/-- C3: `DeleteWal` returns corruption exactly when the identifier has no
entry or its entry is not closed; on corruption the mapping `GetWals()` is
unchanged, and on success the identifier is absent from `GetWals()`. -/
theorem deleteWal_requires_existing_closed (s : WalSet) (d : WalDeletion) :
    ((WalSet.DeleteWal s d).1.isCorruption = true ↔
      (s d.number_ = none ∨ ∃ m, s d.number_ = some m ∧ m.closed = false)) ∧
    ((WalSet.DeleteWal s d).1.isCorruption = true →
      WalSet.GetWals (WalSet.DeleteWal s d).2 = WalSet.GetWals s) ∧
    ((WalSet.DeleteWal s d).1 = Status.ok →
      WalSet.GetWals (WalSet.DeleteWal s d).2 d.number_ = none) := by
  cases hv : s d.number_ with
  | none =>
    refine ⟨?_, ?_, ?_⟩
    · simp [WalSet.DeleteWal, hv, Status.isCorruption]
    · intro _
      simp [WalSet.DeleteWal, hv, WalSet.GetWals]
    · intro hok
      simp [WalSet.DeleteWal, hv] at hok
  | some m =>
    cases hm : m.closed
    · refine ⟨?_, ?_, ?_⟩
      · simp only [WalSet.DeleteWal, hv, hm]
        simp [Status.isCorruption, hv, hm]
      · intro _
        simp [WalSet.DeleteWal, hv, hm, WalSet.GetWals]
      · intro hok
        simp [WalSet.DeleteWal, hv, hm] at hok
    · refine ⟨?_, ?_, ?_⟩
      · simp only [WalSet.DeleteWal, hv, hm]
        simp [Status.isCorruption, hv, hm]
      · intro hcor
        simp [WalSet.DeleteWal, hv, hm, Status.isCorruption] at hcor
      · intro _
        simp [WalSet.DeleteWal, WalSet.GetWals, hv, hm]

/-- Witness for `deleteWal_requires_existing_closed`: deleting WAL 2 from the
empty set is corruption and leaves the mapping unchanged (empty). -/
theorem deleteWal_requires_existing_closed_witness :
    ((WalSet.DeleteWal WalSet.init (WalDeletion.mk 2)).1.isCorruption = true) ∧
    WalSet.GetWals (WalSet.DeleteWal WalSet.init (WalDeletion.mk 2)).2 =
      WalSet.GetWals WalSet.init := by
  have h := deleteWal_requires_existing_closed WalSet.init (WalDeletion.mk 2)
  have hcor : (WalSet.DeleteWal WalSet.init (WalDeletion.mk 2)).1.isCorruption = true :=
    h.1.mpr (Or.inl rfl)
  exact ⟨hcor, h.2.1 hcor⟩

/-- C7: from a set with no entry for `n`, an addition for `n` with
`closed = false`, then an addition for `n` with `closed = true` and a synced
size, then a deletion of `n`, all succeed, and afterwards `n` is absent from
`GetWals()`. -/
theorem wal_lifecycle_add_close_delete (s : WalSet) (n : WalNumber) (size : Nat)
    (h : s n = none) :
    (WalSet.AddWal s (WalAddition.mk n WalMetadata.init)).1 = Status.ok ∧
    (WalSet.AddWal (WalSet.AddWal s (WalAddition.mk n WalMetadata.init)).2
        (WalAddition.mk n (WalMetadata.mk size true))).1 = Status.ok ∧
    (WalSet.DeleteWal
        (WalSet.AddWal (WalSet.AddWal s (WalAddition.mk n WalMetadata.init)).2
          (WalAddition.mk n (WalMetadata.mk size true))).2
        (WalDeletion.mk n)).1 = Status.ok ∧
    WalSet.GetWals
        (WalSet.DeleteWal
          (WalSet.AddWal (WalSet.AddWal s (WalAddition.mk n WalMetadata.init)).2
            (WalAddition.mk n (WalMetadata.mk size true))).2
          (WalDeletion.mk n)).2 n = none := by
  refine ⟨?_, ?_, ?_, ?_⟩ <;>
    simp [WalSet.AddWal, WalSet.DeleteWal, WalSet.GetWals, h, WalMetadata.init]

/-- Witness for `wal_lifecycle_add_close_delete`: the lifecycle of WAL 7 with
synced size 42, starting from the empty set. -/
theorem wal_lifecycle_add_close_delete_witness :
    (WalSet.AddWal WalSet.init (WalAddition.mk 7 WalMetadata.init)).1 = Status.ok ∧
    (WalSet.AddWal (WalSet.AddWal WalSet.init (WalAddition.mk 7 WalMetadata.init)).2
        (WalAddition.mk 7 (WalMetadata.mk 42 true))).1 = Status.ok ∧
    (WalSet.DeleteWal
        (WalSet.AddWal (WalSet.AddWal WalSet.init (WalAddition.mk 7 WalMetadata.init)).2
          (WalAddition.mk 7 (WalMetadata.mk 42 true))).2
        (WalDeletion.mk 7)).1 = Status.ok ∧
    WalSet.GetWals
        (WalSet.DeleteWal
          (WalSet.AddWal (WalSet.AddWal WalSet.init (WalAddition.mk 7 WalMetadata.init)).2
            (WalAddition.mk 7 (WalMetadata.mk 42 true))).2
          (WalDeletion.mk 7)).2 7 = none :=
  wal_lifecycle_add_close_delete WalSet.init 7 42 rfl

/-- C8: `Reset()` empties the mapping for any set, including non-empty ones;
and after a full lifecycle of WAL `n` (added open, closed with a synced size,
deleted), a fresh addition for `n` with `closed = false` succeeds again. -/
theorem reset_clears_and_identifier_reusable (s : WalSet) (n : WalNumber) (size : Nat)
    (h : s n = none) :
    (∀ k, WalSet.GetWals (WalSet.Reset s) k = none) ∧
    (WalSet.AddWal
        (WalSet.DeleteWal
          (WalSet.AddWal (WalSet.AddWal s (WalAddition.mk n WalMetadata.init)).2
            (WalAddition.mk n (WalMetadata.mk size true))).2
          (WalDeletion.mk n)).2
        (WalAddition.mk n WalMetadata.init)).1 = Status.ok := by
  constructor
  · intro k
    rfl
  · simp [WalSet.AddWal, WalSet.DeleteWal, h, WalMetadata.init]

/-- Witness for `reset_clears_and_identifier_reusable`: WAL 7 with synced
size 42, starting from the empty set; after its lifecycle, re-adding WAL 7
open succeeds. -/
theorem reset_clears_and_identifier_reusable_witness :
    WalSet.GetWals (WalSet.Reset WalSet.init) 0 = none ∧
    (WalSet.AddWal
        (WalSet.DeleteWal
          (WalSet.AddWal (WalSet.AddWal WalSet.init (WalAddition.mk 7 WalMetadata.init)).2
            (WalAddition.mk 7 (WalMetadata.mk 42 true))).2
          (WalDeletion.mk 7)).2
        (WalAddition.mk 7 WalMetadata.init)).1 = Status.ok := by
  have h := reset_clears_and_identifier_reusable WalSet.init 7 42 rfl
  exact ⟨h.1 0, h.2⟩

theorem addWal_fail_unchanged (s : WalSet) (w : WalAddition)
    (hw : (WalSet.AddWal s w).1 ≠ Status.ok) :
    WalSet.AddWal s w = ((WalSet.AddWal s w).1, s) := by
  cases hv : s w.number_ with
  | none =>
    by_cases hc : w.metadata_.closed
    · simp [WalSet.AddWal, hv, hc]
    · exact absurd (by simp [WalSet.AddWal, hv, hc]) hw
  | some m => exact absurd (by simp [WalSet.AddWal, hv]) hw

theorem deleteWal_fail_unchanged (s : WalSet) (w : WalDeletion)
    (hw : (WalSet.DeleteWal s w).1 ≠ Status.ok) :
    WalSet.DeleteWal s w = ((WalSet.DeleteWal s w).1, s) := by
  cases hv : s w.number_ with
  | none => simp [WalSet.DeleteWal, hv]
  | some m =>
    by_cases hc : m.closed
    · exact absurd (by simp [WalSet.DeleteWal, hv, hc]) hw
    · simp [WalSet.DeleteWal, hv, hc]

theorem addWals_append_of_ok (s : WalSet) (pre post : List WalAddition)
    (h : (WalSet.AddWals s pre).1 = Status.ok) :
    WalSet.AddWals s (pre ++ post) = WalSet.AddWals (WalSet.AddWals s pre).2 post := by
  induction pre generalizing s with
  | nil => simp [WalSet.AddWals]
  | cons w rest ih =>
    by_cases hw : (WalSet.AddWal s w).1 = Status.ok
    · simp only [WalSet.AddWals, List.cons_append, hw, if_true] at h ⊢
      exact ih _ h
    · simp only [WalSet.AddWals, hw, if_false] at h

theorem deleteWals_append_of_ok (s : WalSet) (pre post : List WalDeletion)
    (h : (WalSet.DeleteWals s pre).1 = Status.ok) :
    WalSet.DeleteWals s (pre ++ post) =
      WalSet.DeleteWals (WalSet.DeleteWals s pre).2 post := by
  induction pre generalizing s with
  | nil => simp [WalSet.DeleteWals]
  | cons w rest ih =>
    by_cases hw : (WalSet.DeleteWal s w).1 = Status.ok
    · simp only [WalSet.DeleteWals, List.cons_append, hw, if_true] at h ⊢
      exact ih _ h
    · simp only [WalSet.DeleteWals, hw, if_false] at h

/-- C5: `AddWals` and `DeleteWals` apply their elements one at a time in
sequence order: after a batch prefix that fully succeeds, the whole batch
continues from the prefix's resulting set; and when the next element fails,
the batch returns that element's error with the prefix's effects still in
place and the later elements unapplied (no rollback).  In particular an
all-success batch equals applying each element individually in order. -/
theorem batch_apply_sequential_first_error_no_rollback :
    (∀ (s : WalSet) (pre post : List WalAddition),
       (WalSet.AddWals s pre).1 = Status.ok →
       WalSet.AddWals s (pre ++ post) =
         WalSet.AddWals (WalSet.AddWals s pre).2 post) ∧
    (∀ (s : WalSet) (pre : List WalAddition) (w : WalAddition)
       (post : List WalAddition),
       (WalSet.AddWals s pre).1 = Status.ok →
       (WalSet.AddWal (WalSet.AddWals s pre).2 w).1 ≠ Status.ok →
       WalSet.AddWals s (pre ++ w :: post) =
         ((WalSet.AddWal (WalSet.AddWals s pre).2 w).1,
          (WalSet.AddWals s pre).2)) ∧
    (∀ (s : WalSet) (pre post : List WalDeletion),
       (WalSet.DeleteWals s pre).1 = Status.ok →
       WalSet.DeleteWals s (pre ++ post) =
         WalSet.DeleteWals (WalSet.DeleteWals s pre).2 post) ∧
    (∀ (s : WalSet) (pre : List WalDeletion) (w : WalDeletion)
       (post : List WalDeletion),
       (WalSet.DeleteWals s pre).1 = Status.ok →
       (WalSet.DeleteWal (WalSet.DeleteWals s pre).2 w).1 ≠ Status.ok →
       WalSet.DeleteWals s (pre ++ w :: post) =
         ((WalSet.DeleteWal (WalSet.DeleteWals s pre).2 w).1,
          (WalSet.DeleteWals s pre).2)) := by
  refine ⟨addWals_append_of_ok, ?_, deleteWals_append_of_ok, ?_⟩
  · intro s pre w post h hw
    rw [addWals_append_of_ok s pre (w :: post) h]
    simp only [WalSet.AddWals, hw, if_false]
    exact addWal_fail_unchanged _ w hw
  · intro s pre w post h hw
    rw [deleteWals_append_of_ok s pre (w :: post) h]
    simp only [WalSet.DeleteWals, hw, if_false]
    exact deleteWal_fail_unchanged _ w hw

/-- Witness for `batch_apply_sequential_first_error_no_rollback`: in the batch
opening WAL 1, then closing never-added WAL 2 (which fails), then opening
WAL 3, the batch stops at the failing element with WAL 1's addition kept. -/
theorem batch_apply_sequential_first_error_no_rollback_witness :
    WalSet.AddWals WalSet.init
        ([WalAddition.mk 1 WalMetadata.init] ++
          WalAddition.mk 2 (WalMetadata.mk 5 true) ::
            [WalAddition.mk 3 WalMetadata.init]) =
      ((WalSet.AddWal
          (WalSet.AddWals WalSet.init [WalAddition.mk 1 WalMetadata.init]).2
          (WalAddition.mk 2 (WalMetadata.mk 5 true))).1,
       (WalSet.AddWals WalSet.init [WalAddition.mk 1 WalMetadata.init]).2) :=
  batch_apply_sequential_first_error_no_rollback.2.1 WalSet.init
    [WalAddition.mk 1 WalMetadata.init] (WalAddition.mk 2 (WalMetadata.mk 5 true))
    [WalAddition.mk 3 WalMetadata.init] rfl (by decide)

end RocksDBWal
